import Mathlib

/-!
Shallow embedding of src/curriculum_sort.py.

The script buckets a parallel corpus into difficulty bins. We embed the
pure core: rank_sentence, assign_to_bins, the threshold validation of
parse_args, and the sampling arithmetic of print_stats. Python dicts are
modelled as association lists (keys are unique in the modelled inputs),
Python runtime failures as an explicit error type, and the non-negative
word frequencies as Nat, so that int(sum/len) on non-negative operands is
Nat floor division.
-/

namespace CurriculumSort

/-- Runtime failures the Python script can raise in the embedded fragment. -/
inductive PyError where
  /-- ZeroDivisionError from summed_freqs divided by a zero sentence length. -/
  | zeroDivisionError
  /-- ValueError from taking min of an empty frequencies list. -/
  | valueErrorEmptySeq
  /-- UnboundLocalError: the local idx was never set because side matched no branch. -/
  | unboundLocalIdx
  /-- ValueError raised by parse_args when no threshold option was supplied. -/
  | valueErrorNoThresholds
deriving DecidableEq, Repr

/-- A tokenized sentence: one corpus line split on whitespace. -/
abbrev Sentence := List String

/-- A sentence pair: (source sentence, target sentence). -/
abbrev SentPair := Sentence × Sentence

/-- The word to frequency mapping loaded by load_vocabulary. -/
abbrev Vocabulary := List (String × Nat)

/-- The frequency contributed by one word: vocabulary[word] with the
KeyError handler appending 0 for a word absent from the vocabulary. -/
def lookupFreq (vocabulary : Vocabulary) (word : String) : Nat :=
  (vocabulary.lookup word).getD 0

/-- Embedding of rank_sentence. Builds the frequencies list (0 for unseen
words), then either divides the sum by the sentence length (averaged mode,
ZeroDivisionError on an empty sentence) or takes the minimum (ValueError
on an empty sequence). -/
def rank_sentence (sentence : Sentence) (vocabulary : Vocabulary) (averaged : Bool) :
    Except PyError Nat :=
  let frequencies := sentence.map (fun word => lookupFreq vocabulary word)
  if averaged then
    if sentence.length = 0 then
      .error .zeroDivisionError
    else
      .ok (frequencies.sum / sentence.length)
  else
    match frequencies.min? with
    | none => .error .valueErrorEmptySeq
    | some m => .ok m

/-- The keys of the dict comprehension building bins: the distinct
thresholds in first-occurrence order, as a Python dict stores them. -/
def distinctKeys : List Int → List Int
  | [] => []
  | t :: rest => t :: (distinctKeys rest).filter (fun x => !(x == t))

/-- Embedding of sorted(bins.keys(), reverse=True): the distinct thresholds
in descending numeric order. -/
def sortedKeysDesc (thresholds : List Int) : List Int :=
  List.insertionSort (· ≥ ·) (distinctKeys thresholds)

/-- The branch of assign_to_bins setting idx from side: 0 for source, 1 for
target, and no value at all otherwise (idx stays unbound). -/
def sideIndex (side : String) : Option Nat :=
  if side == "source" then some 0
  else if side == "target" then some 1
  else none

/-- The subscript sent_pair[idx] for idx drawn from sideIndex. -/
def sentAt (pair : SentPair) (idx : Nat) : Sentence :=
  if idx = 0 then pair.1 else pair.2

/-- Embedding of bins[threshold].append(sent_pair). -/
def appendToBin (bins : List (Int × List SentPair)) (t : Int) (pair : SentPair) :
    List (Int × List SentPair) :=
  bins.map (fun kv => if kv.1 = t then (kv.1, kv.2 ++ [pair]) else kv)

/-- The main loop of assign_to_bins: for each sentence pair, rank the
selected side, walk keysDesc (the thresholds sorted descending) and append
the pair to the first bin whose threshold the rank reaches; the break makes
find? the exact embedding of the inner loop. -/
def assignLoop (vocabulary : Vocabulary) (averaged : Bool) (idx : Nat) (keysDesc : List Int) :
    List SentPair → List (Int × List SentPair) → Except PyError (List (Int × List SentPair))
  | [], bins => .ok bins
  | pair :: rest, bins =>
    match rank_sentence (sentAt pair idx) vocabulary averaged with
    | .error e => .error e
    | .ok r =>
      match keysDesc.find? (fun t => decide (t ≤ (r : Int))) with
      | some t => assignLoop vocabulary averaged idx keysDesc rest (appendToBin bins t pair)
      | none => assignLoop vocabulary averaged idx keysDesc rest bins

/-- Embedding of the loop deleting every key whose bin is still the empty
list, which keeps the remaining keys in order. -/
def pruneEmpty (bins : List (Int × List SentPair)) : List (Int × List SentPair) :=
  bins.filter (fun kv => !(kv.2.isEmpty))

/-- Embedding of assign_to_bins. Builds one empty bin per distinct
threshold, resolves side to an index (an unrecognized side leaves idx
unbound, which only errors once the loop body first uses it, so an empty
dataset still returns the pruned empty dict), runs the assignment loop and
prunes empty bins. -/
def assign_to_bins (dataset : List SentPair) (vocabulary : Vocabulary)
    (thresholds : List Int) (side : String) (averaged : Bool) :
    Except PyError (List (Int × List SentPair)) :=
  let bins0 := (distinctKeys thresholds).map (fun t => (t, ([] : List SentPair)))
  match sideIndex side with
  | some idx =>
    match assignLoop vocabulary averaged idx (sortedKeysDesc thresholds) dataset bins0 with
    | .error e => .error e
    | .ok bins => .ok (pruneEmpty bins)
  | none =>
    match dataset with
    | [] => .ok (pruneEmpty bins0)
    | _ :: _ => .error .unboundLocalIdx

/-- Embedding of the threshold handling of parse_args: with action append,
argparse leaves args.threshold as None when the option never occurs and
otherwise collects the occurrences in order; parse_args then raises
ValueError on None and returns the parsed arguments otherwise. -/
def parse_args (thresholdOpts : List Int) (side : String) (averaged : Bool) :
    Except PyError (List Int × String × Bool) :=
  let thresholdArg : Option (List Int) :=
    if thresholdOpts.isEmpty then none else some thresholdOpts
  match thresholdArg with
  | none => .error .valueErrorNoThresholds
  | some ts => .ok (ts, side, averaged)

/-- Embedding of main up to the bins value: parse_args first, then
assign_to_bins on the loaded dataset and vocabulary (file loading is IO
glue and is represented by the already-loaded values). -/
def main_pipeline (thresholdOpts : List Int) (side : String) (averaged : Bool)
    (dataset : List SentPair) (vocabulary : Vocabulary) :
    Except PyError (List (Int × List SentPair)) :=
  match parse_args thresholdOpts side averaged with
  | .error e => .error e
  | .ok (ts, sd, avg) => assign_to_bins dataset vocabulary ts sd avg

/-- The possible values of random.randint(lo, hi): both bounds inclusive. -/
def randint_outcomes (lo hi : Nat) : List Nat :=
  (List.range (hi + 1 - lo)).map (fun i => lo + i)

/-- The sample taken by print_stats at a drawn index: the target side of
current_bin[random_idx], none when the subscript raises IndexError. -/
def sample_from_bin (currentBin : List SentPair) (randomIdx : Nat) : Option Sentence :=
  (currentBin.get? randomIdx).map (fun pair => pair.2)

/-- The bin key the loop of assign_to_bins picks for one pair: the first
threshold of keysDesc at most the rank, none when the pair ranks below all
thresholds or its ranked side is empty. -/
def findKey (vocabulary : Vocabulary) (averaged : Bool) (idx : Nat) (keysDesc : List Int)
    (pair : SentPair) : Option Int :=
  match rank_sentence (sentAt pair idx) vocabulary averaged with
  | .error _ => none
  | .ok r => keysDesc.find? (fun t => decide (t ≤ (r : Int)))

/-- Closed form of the result of assign_to_bins on a valid side: each
distinct threshold keeps the pairs whose chosen key it is, in corpus
order, and empty bins are pruned. -/
def binsSpec (vocabulary : Vocabulary) (averaged : Bool) (idx : Nat)
    (thresholds : List Int) (dataset : List SentPair) : List (Int × List SentPair) :=
  pruneEmpty ((distinctKeys thresholds).map (fun t =>
    (t, dataset.filter (fun p =>
      findKey vocabulary averaged idx (sortedKeysDesc thresholds) p == some t))))

/-! Helper lemmas about the embedded definitions. -/

lemma mem_distinctKeys {x : Int} : ∀ {l : List Int}, x ∈ distinctKeys l ↔ x ∈ l
  | [] => by simp [distinctKeys]
  | t :: rest => by
    by_cases hx : x = t
    · simp [distinctKeys, hx]
    · simp [distinctKeys, List.mem_filter, hx, mem_distinctKeys (l := rest)]

lemma sortedKeysDesc_sorted (thresholds : List Int) :
    (sortedKeysDesc thresholds).Sorted (· ≥ ·) :=
  List.sorted_insertionSort _ _

lemma mem_sortedKeysDesc {x : Int} {thresholds : List Int} :
    x ∈ sortedKeysDesc thresholds ↔ x ∈ thresholds := by
  simp [sortedKeysDesc, List.mem_insertionSort, mem_distinctKeys]

lemma rank_sentence_ok (sentence : Sentence) (vocabulary : Vocabulary) (averaged : Bool)
    (hs : sentence ≠ []) : ∃ r, rank_sentence sentence vocabulary averaged = .ok r := by
  cases averaged with
  | true =>
    have hlen : sentence.length ≠ 0 := by simpa [List.length_eq_zero] using hs
    exact ⟨(sentence.map (fun word => lookupFreq vocabulary word)).sum / sentence.length,
      by simp [rank_sentence, hlen]⟩
  | false =>
    cases hm : (sentence.map (fun word => lookupFreq vocabulary word)).min? with
    | none =>
      rw [List.min?_eq_none_iff, List.map_eq_nil_iff] at hm
      exact absurd hm hs
    | some m => exact ⟨m, by simp [rank_sentence, hm]⟩

lemma find?_sorted_desc_eq_max {keys : List Int} (hsort : keys.Sorted (· ≥ ·)) {T r : Int}
    (hmem : T ∈ keys) (hTr : T ≤ r) (hmax : ∀ t ∈ keys, t ≤ r → t ≤ T) :
    keys.find? (fun t => decide (t ≤ r)) = some T := by
  induction keys with
  | nil => cases hmem
  | cons k ks ih =>
    rw [List.sorted_cons] at hsort
    obtain ⟨hk, hks⟩ := hsort
    by_cases hkr : k ≤ r
    · have hkT : k = T := by
        refine le_antisymm (hmax k (by simp) hkr) ?_
        rcases List.mem_cons.mp hmem with h | h
        · exact le_of_eq h
        · exact hk T h
      rw [List.find?_cons_of_pos _ (by simpa using hkr), hkT]
    · have hTk : T ≠ k := fun h => hkr (h ▸ hTr)
      have hmem2 : T ∈ ks := by
        rcases List.mem_cons.mp hmem with h | h
        · exact absurd h hTk
        · exact h
      rw [List.find?_cons_of_neg _ (by simpa using hkr)]
      exact ih hks hmem2 (fun t ht htr => hmax t (List.mem_cons_of_mem _ ht) htr)

lemma assignLoop_closed (vocabulary : Vocabulary) (averaged : Bool) (idx : Nat)
    (keys : List Int) :
    ∀ (dataset : List SentPair) (bins : List (Int × List SentPair)),
      (∀ p ∈ dataset, sentAt p idx ≠ []) →
      assignLoop vocabulary averaged idx keys dataset bins =
        .ok (bins.map (fun kv => (kv.1, kv.2 ++
          dataset.filter (fun p => findKey vocabulary averaged idx keys p == some kv.1))))
  | [], bins, _ => by simp [assignLoop]
  | pair :: rest, bins, hne => by
    obtain ⟨r, hr⟩ :=
      rank_sentence_ok (sentAt pair idx) vocabulary averaged (hne pair (by simp))
    have hkey : findKey vocabulary averaged idx keys pair =
        keys.find? (fun t => decide (t ≤ (r : Int))) := by
      simp [findKey, hr]
    have hrest : ∀ p ∈ rest, sentAt p idx ≠ [] :=
      fun p hp => hne p (List.mem_cons_of_mem _ hp)
    cases hf : keys.find? (fun t => decide (t ≤ (r : Int))) with
    | none =>
      simp only [assignLoop, hr, hf]
      rw [assignLoop_closed vocabulary averaged idx keys rest bins hrest]
      refine congrArg Except.ok (List.map_congr_left fun kv _ => ?_)
      rw [List.filter_cons_of_neg (by simp [hkey, hf])]
    | some t =>
      simp only [assignLoop, hr, hf]
      rw [assignLoop_closed vocabulary averaged idx keys rest (appendToBin bins t pair) hrest]
      refine congrArg Except.ok ?_
      rw [appendToBin, List.map_map]
      refine List.map_congr_left fun kv _ => ?_
      by_cases hkv : kv.1 = t
      · have hpos : (findKey vocabulary averaged idx keys pair == some kv.1) = true := by
          simp [hkey, hf, hkv]
        simp only [Function.comp_apply, if_pos hkv, List.append_assoc, List.singleton_append]
        simp [List.filter_cons, hpos]
      · have hneg : ¬ (findKey vocabulary averaged idx keys pair == some kv.1) = true := by
          simp [hkey, hf]
          exact fun h => hkv h.symm
        simp only [Function.comp_apply, if_neg hkv]
        simp [List.filter_cons, hneg]

lemma assign_to_bins_closed (dataset : List SentPair) (vocabulary : Vocabulary)
    (thresholds : List Int) (side : String) (averaged : Bool) (idx : Nat)
    (hside : sideIndex side = some idx)
    (hne : ∀ p ∈ dataset, sentAt p idx ≠ []) :
    assign_to_bins dataset vocabulary thresholds side averaged =
      .ok (binsSpec vocabulary averaged idx thresholds dataset) := by
  simp only [assign_to_bins, hside,
    assignLoop_closed vocabulary averaged idx (sortedKeysDesc thresholds) dataset _ hne]
  rw [binsSpec]
  refine congrArg Except.ok (congrArg pruneEmpty ?_)
  rw [List.map_map]
  exact List.map_congr_left fun t _ => by simp

lemma mem_binsSpec {kv : Int × List SentPair} {vocabulary : Vocabulary} {averaged : Bool}
    {idx : Nat} {thresholds : List Int} {dataset : List SentPair} :
    kv ∈ binsSpec vocabulary averaged idx thresholds dataset ↔
      kv.1 ∈ distinctKeys thresholds ∧
      kv.2 = dataset.filter
        (fun p => findKey vocabulary averaged idx (sortedKeysDesc thresholds) p == some kv.1) ∧
      kv.2 ≠ [] := by
  constructor
  · intro h
    rw [binsSpec, pruneEmpty, List.mem_filter, List.mem_map] at h
    obtain ⟨⟨t, ht, hft⟩, hne⟩ := h
    obtain ⟨k, l⟩ := kv
    cases hft
    refine ⟨ht, rfl, ?_⟩
    simpa [List.isEmpty_iff] using hne
  · intro ⟨h1, h2, h3⟩
    rw [binsSpec, pruneEmpty, List.mem_filter, List.mem_map]
    refine ⟨⟨kv.1, h1, ?_⟩, by simpa [List.isEmpty_iff] using h3⟩
    obtain ⟨k, l⟩ := kv
    simpa using h2.symm

/-! Claim theorems. -/

/-- C1: for every sentence pair whose ranked-side sentence has rank r,
assign_to_bins puts the pair into the bin of the highest threshold T of the
threshold set with T ≤ r, found by walking the distinct thresholds in
descending order and stopping at the first qualifying one. -/
theorem claim_C1_highest_qualifying_threshold
    (dataset : List SentPair) (vocabulary : Vocabulary) (thresholds : List Int)
    (side : String) (averaged : Bool) (idx : Nat) (pair : SentPair) (r : Nat) (T : Int)
    (hside : sideIndex side = some idx)
    (hne : ∀ p ∈ dataset, sentAt p idx ≠ [])
    (hmem : pair ∈ dataset)
    (hrank : rank_sentence (sentAt pair idx) vocabulary averaged = .ok r)
    (hT : T ∈ thresholds)
    (hTr : T ≤ (r : Int))
    (hmax : ∀ t ∈ thresholds, t ≤ (r : Int) → t ≤ T) :
    ∃ bins binList,
      assign_to_bins dataset vocabulary thresholds side averaged = .ok bins ∧
      (T, binList) ∈ bins ∧ pair ∈ binList := by
  have hfind : (sortedKeysDesc thresholds).find? (fun t => decide (t ≤ (r : Int))) = some T :=
    find?_sorted_desc_eq_max (sortedKeysDesc_sorted thresholds)
      (mem_sortedKeysDesc.mpr hT) hTr
      (fun t ht htr => hmax t (mem_sortedKeysDesc.mp ht) htr)
  have hkey : findKey vocabulary averaged idx (sortedKeysDesc thresholds) pair = some T := by
    simp [findKey, hrank, hfind]
  refine ⟨binsSpec vocabulary averaged idx thresholds dataset,
    dataset.filter
      (fun p => findKey vocabulary averaged idx (sortedKeysDesc thresholds) p == some T),
    assign_to_bins_closed dataset vocabulary thresholds side averaged idx hside hne, ?_, ?_⟩
  · exact mem_binsSpec.mpr ⟨mem_distinctKeys.mpr hT, rfl,
      List.ne_nil_of_mem (List.mem_filter.mpr ⟨hmem, by simp [hkey]⟩)⟩
  · exact List.mem_filter.mpr ⟨hmem, by simp [hkey]⟩

/-- C1 witness: thresholds [0, 10, 100] and rank 55 send the pair to bin 10. -/
theorem claim_C1_witness :
    ∃ bins binList,
      assign_to_bins [(["x"], ["w"])] [("w", 55)] [0, 10, 100] "target" false = .ok bins ∧
      ((10 : Int), binList) ∈ bins ∧ (["x"], ["w"]) ∈ binList :=
  claim_C1_highest_qualifying_threshold [(["x"], ["w"])] [("w", 55)] [0, 10, 100]
    "target" false 1 (["x"], ["w"]) 55 10
    (by decide) (by decide) (by decide) rfl (by decide) (by decide) (by decide)

/-- C2: in minimum-frequency mode a non-empty sentence ranks at the minimum
vocabulary frequency of its words, 0 standing in for absent words, so any
sentence containing an out-of-vocabulary word ranks 0. -/
theorem claim_C2_minimum_mode (sentence : Sentence) (vocabulary : Vocabulary)
    (hs : sentence ≠ []) :
    ∃ r, rank_sentence sentence vocabulary false = .ok r ∧
      (∀ w ∈ sentence, r ≤ lookupFreq vocabulary w) ∧
      (∃ w ∈ sentence, lookupFreq vocabulary w = r) ∧
      ((∃ w ∈ sentence, vocabulary.lookup w = none) → r = 0) := by
  cases hm : (sentence.map (fun word => lookupFreq vocabulary word)).min? with
  | none =>
    rw [List.min?_eq_none_iff, List.map_eq_nil_iff] at hm
    exact absurd hm hs
  | some m =>
    have hchar : m ∈ (sentence.map fun word => lookupFreq vocabulary word) ∧
        ∀ b ∈ (sentence.map fun word => lookupFreq vocabulary word), m ≤ b := by
      rw [List.min?_eq_some_iff] at hm
      · exact hm
      · exact fun a => Nat.le_refl a
      · exact fun a b => min_choice a b
      · exact fun a b c => Nat.le_min
    obtain ⟨hmem, hle⟩ := hchar
    obtain ⟨w0, hw0, hw0f⟩ := List.mem_map.mp hmem
    refine ⟨m, by simp [rank_sentence, hm], ?_, ⟨w0, hw0, hw0f⟩, ?_⟩
    · exact fun w hw => hle _ (List.mem_map.mpr ⟨w, hw, rfl⟩)
    · rintro ⟨w, hw, hwnone⟩
      have h0 : lookupFreq vocabulary w = 0 := by simp [lookupFreq, hwnone]
      have hm0 := hle _ (List.mem_map.mpr ⟨w, hw, rfl⟩)
      omega

/-- C2 witness: vocabulary the:100 cat:50 and sentence [the, cat, xyz]
satisfy the minimum-mode characterization, forcing rank 0 via xyz. -/
theorem claim_C2_witness :
    ∃ r, rank_sentence ["the", "cat", "xyz"] [("the", 100), ("cat", 50)] false = .ok r ∧
      (∀ w ∈ ["the", "cat", "xyz"], r ≤ lookupFreq [("the", 100), ("cat", 50)] w) ∧
      (∃ w ∈ ["the", "cat", "xyz"], lookupFreq [("the", 100), ("cat", 50)] w = r) ∧
      ((∃ w ∈ ["the", "cat", "xyz"], ([("the", 100), ("cat", 50)] : Vocabulary).lookup w = none) →
        r = 0) :=
  claim_C2_minimum_mode ["the", "cat", "xyz"] [("the", 100), ("cat", 50)] (by decide)

/-- C3: in averaged mode a non-empty sentence ranks at the floor division
of the summed word frequencies (0 for absent words) by the sentence
length. -/
theorem claim_C3_averaged_mode (sentence : Sentence) (vocabulary : Vocabulary)
    (hs : sentence ≠ []) :
    rank_sentence sentence vocabulary true =
      .ok ((sentence.map (fun word => lookupFreq vocabulary word)).sum / sentence.length) := by
  have hlen : sentence.length ≠ 0 := by simpa [List.length_eq_zero] using hs
  simp [rank_sentence, hlen]

/-- C3 witness: with vocabulary a:10 b:20 the sentence [a, b] ranks 15 and
[a, b, c] with c unseen ranks 10. -/
theorem claim_C3_witness :
    rank_sentence ["a", "b"] [("a", 10), ("b", 20)] true = .ok 15 ∧
    rank_sentence ["a", "b", "c"] [("a", 10), ("b", 20)] true = .ok 10 :=
  ⟨claim_C3_averaged_mode ["a", "b"] [("a", 10), ("b", 20)] (by decide),
   claim_C3_averaged_mode ["a", "b", "c"] [("a", 10), ("b", 20)] (by decide)⟩

/-- C4: with a threshold at most 0 present and every ranked sentence
non-empty, assign_to_bins partitions the corpus: membership in some bin is
membership in the corpus, and the bin holding a pair is unique. -/
theorem claim_C4_partition
    (dataset : List SentPair) (vocabulary : Vocabulary) (thresholds : List Int)
    (side : String) (averaged : Bool) (idx : Nat)
    (hside : sideIndex side = some idx)
    (hne : ∀ p ∈ dataset, sentAt p idx ≠ [])
    (hzero : ∃ T ∈ thresholds, T ≤ 0) :
    ∃ bins,
      assign_to_bins dataset vocabulary thresholds side averaged = .ok bins ∧
      (∀ pair, (∃ kv ∈ bins, pair ∈ kv.2) ↔ pair ∈ dataset) ∧
      (∀ pair ∈ dataset, ∃ kv, kv ∈ bins ∧ pair ∈ kv.2 ∧
        ∀ kv2, kv2 ∈ bins → pair ∈ kv2.2 → kv2 = kv) := by
  obtain ⟨T0, hT0, hT0le⟩ := hzero
  have hassigned : ∀ pair ∈ dataset, ∃ t,
      findKey vocabulary averaged idx (sortedKeysDesc thresholds) pair = some t ∧
      t ∈ thresholds := by
    intro pair hp
    obtain ⟨r, hr⟩ := rank_sentence_ok _ vocabulary averaged (hne pair hp)
    have hsome : ((sortedKeysDesc thresholds).find? (fun t => decide (t ≤ (r : Int)))).isSome := by
      rw [List.find?_isSome]
      exact ⟨T0, mem_sortedKeysDesc.mpr hT0,
        by simpa using le_trans hT0le (Int.natCast_nonneg r)⟩
    obtain ⟨t, ht⟩ := Option.isSome_iff_exists.mp hsome
    exact ⟨t, by simp [findKey, hr, ht],
      mem_sortedKeysDesc.mp (List.mem_of_find?_eq_some ht)⟩
  have hfrom : ∀ kv ∈ binsSpec vocabulary averaged idx thresholds dataset, ∀ pair ∈ kv.2,
      pair ∈ dataset ∧
      findKey vocabulary averaged idx (sortedKeysDesc thresholds) pair = some kv.1 := by
    intro kv hkv pair hp
    obtain ⟨_, hk2, _⟩ := mem_binsSpec.mp hkv
    rw [hk2] at hp
    obtain ⟨hp1, hp2⟩ := List.mem_filter.mp hp
    exact ⟨hp1, by simpa using hp2⟩
  refine ⟨binsSpec vocabulary averaged idx thresholds dataset,
    assign_to_bins_closed dataset vocabulary thresholds side averaged idx hside hne, ?_, ?_⟩
  · intro pair
    constructor
    · rintro ⟨kv, hkv, hp⟩
      exact (hfrom kv hkv pair hp).1
    · intro hp
      obtain ⟨t, hkey, ht⟩ := hassigned pair hp
      refine ⟨(t, dataset.filter (fun p =>
        findKey vocabulary averaged idx (sortedKeysDesc thresholds) p == some t)), ?_, ?_⟩
      · exact mem_binsSpec.mpr ⟨mem_distinctKeys.mpr ht, rfl,
          List.ne_nil_of_mem (List.mem_filter.mpr ⟨hp, by simp [hkey]⟩)⟩
      · exact List.mem_filter.mpr ⟨hp, by simp [hkey]⟩
  · intro pair hp
    obtain ⟨t, hkey, ht⟩ := hassigned pair hp
    refine ⟨(t, dataset.filter (fun p =>
      findKey vocabulary averaged idx (sortedKeysDesc thresholds) p == some t)),
      mem_binsSpec.mpr ⟨mem_distinctKeys.mpr ht, rfl,
        List.ne_nil_of_mem (List.mem_filter.mpr ⟨hp, by simp [hkey]⟩)⟩,
      List.mem_filter.mpr ⟨hp, by simp [hkey]⟩, ?_⟩
    intro kv2 hkv2 hp2
    have hkey2 := (hfrom kv2 hkv2 pair hp2).2
    have hk1 : kv2.1 = t := by
      rw [hkey] at hkey2
      exact (Option.some.inj hkey2).symm
    obtain ⟨_, hk2, _⟩ := mem_binsSpec.mp hkv2
    obtain ⟨k, l⟩ := kv2
    simp only at hk1 hk2
    subst hk1
    simp only [Prod.mk.injEq, true_and]
    rw [hk2]

/-- C4 witness: thresholds [0, 10] partition a two-pair corpus. -/
theorem claim_C4_witness :
    ∃ bins,
      assign_to_bins [(["x"], ["w"]), (["y"], ["v"])] [("w", 55)] [0, 10] "target" false =
        .ok bins ∧
      (∀ pair, (∃ kv ∈ bins, pair ∈ kv.2) ↔
        pair ∈ [(["x"], ["w"]), (["y"], ["v"])]) ∧
      (∀ pair ∈ [(["x"], ["w"]), (["y"], ["v"])], ∃ kv, kv ∈ bins ∧ pair ∈ kv.2 ∧
        ∀ kv2, kv2 ∈ bins → pair ∈ kv2.2 → kv2 = kv) :=
  claim_C4_partition [(["x"], ["w"]), (["y"], ["v"])] [("w", 55)] [0, 10] "target" false 1
    (by decide) (by decide) ⟨0, by decide, by decide⟩

/-- C5: a pair ranking strictly below every threshold is silently dropped:
assign_to_bins still succeeds and the pair is in no bin of the result. -/
theorem claim_C5_silent_drop
    (dataset : List SentPair) (vocabulary : Vocabulary) (thresholds : List Int)
    (side : String) (averaged : Bool) (idx : Nat) (pair : SentPair) (r : Nat)
    (hside : sideIndex side = some idx)
    (hne : ∀ p ∈ dataset, sentAt p idx ≠ [])
    (hmem : pair ∈ dataset)
    (hrank : rank_sentence (sentAt pair idx) vocabulary averaged = .ok r)
    (hlow : ∀ t ∈ thresholds, (r : Int) < t) :
    ∃ bins,
      assign_to_bins dataset vocabulary thresholds side averaged = .ok bins ∧
      ∀ kv ∈ bins, pair ∉ kv.2 := by
  have hfind : (sortedKeysDesc thresholds).find? (fun t => decide (t ≤ (r : Int))) = none := by
    rw [List.find?_eq_none]
    intro t ht
    simpa using not_le.mpr (hlow t (mem_sortedKeysDesc.mp ht))
  have hkey : findKey vocabulary averaged idx (sortedKeysDesc thresholds) pair = none := by
    simp [findKey, hrank, hfind]
  refine ⟨binsSpec vocabulary averaged idx thresholds dataset,
    assign_to_bins_closed dataset vocabulary thresholds side averaged idx hside hne, ?_⟩
  intro kv hkv hp
  obtain ⟨_, hk2, _⟩ := mem_binsSpec.mp hkv
  rw [hk2] at hp
  have hp2 := (List.mem_filter.mp hp).2
  simp [hkey] at hp2

/-- C5 witness: a pair of rank 5 with sole threshold 10 lands in no bin
while assign_to_bins still returns a value. -/
theorem claim_C5_witness :
    ∃ bins,
      assign_to_bins [(["x"], ["w"])] [("w", 5)] [10] "target" false = .ok bins ∧
      ∀ kv ∈ bins, (["x"], ["w"]) ∉ kv.2 :=
  claim_C5_silent_drop [(["x"], ["w"])] [("w", 5)] [10] "target" false 1 (["x"], ["w"]) 5
    (by decide) (by decide) (by decide) rfl (by decide)

/-- C6: every bin present in a successful result of assign_to_bins holds a
non-empty list, because empty bins are deleted before returning. -/
theorem claim_C6_empty_bins_pruned
    (dataset : List SentPair) (vocabulary : Vocabulary) (thresholds : List Int)
    (side : String) (averaged : Bool) (bins : List (Int × List SentPair))
    (kv : Int × List SentPair)
    (h : assign_to_bins dataset vocabulary thresholds side averaged = .ok bins)
    (hkv : kv ∈ bins) : kv.2 ≠ [] := by
  have hpruned : ∃ b, bins = pruneEmpty b := by
    simp only [assign_to_bins] at h
    split at h
    · split at h
      · simp at h
      · exact ⟨_, (Except.ok.inj h).symm⟩
    · split at h
      · exact ⟨_, (Except.ok.inj h).symm⟩
      · simp at h
  obtain ⟨b, rfl⟩ := hpruned
  have hkv2 := (List.mem_filter.mp hkv).2
  simpa [List.isEmpty_iff] using hkv2

/-- C6 witness: with thresholds [0, 10, 1000] and one pair of rank 5, only
the bin at 0 survives and its list is non-empty, the key 1000 being absent
from the result. -/
theorem claim_C6_witness :
    (((0 : Int), [((["x"], ["w"]) : SentPair)]).2 : List SentPair) ≠ [] :=
  claim_C6_empty_bins_pruned [(["x"], ["w"])] [("w", 5)] [0, 10, 1000] "target" false
    [((0 : Int), [(["x"], ["w"])])] ((0 : Int), [(["x"], ["w"])]) (by rfl) (by decide)

/-- C7: the empty sentence makes rank_sentence fail in both modes, with a
zero division in averaged mode and an empty-sequence minimum otherwise. -/
theorem claim_C7_empty_sentence_fails (vocabulary : Vocabulary) :
    rank_sentence [] vocabulary true = .error .zeroDivisionError ∧
    rank_sentence [] vocabulary false = .error .valueErrorEmptySeq :=
  ⟨rfl, rfl⟩

/-- C8: with no threshold option supplied, parse_args raises the
configuration error and the pipeline stops there, independent of the
corpus and vocabulary. -/
theorem claim_C8_missing_thresholds_rejected (side : String) (averaged : Bool)
    (dataset : List SentPair) (vocabulary : Vocabulary) :
    parse_args [] side averaged = .error .valueErrorNoThresholds ∧
    main_pipeline [] side averaged dataset vocabulary = .error .valueErrorNoThresholds :=
  ⟨rfl, rfl⟩

/-- C9: an unrecognized side value leaves idx unbound, so on a non-empty
corpus assign_to_bins fails on the first pair and assigns nothing. -/
theorem claim_C9_unrecognized_side_fails
    (dataset : List SentPair) (vocabulary : Vocabulary) (thresholds : List Int)
    (side : String) (averaged : Bool)
    (h1 : side ≠ "source") (h2 : side ≠ "target") (h3 : dataset ≠ []) :
    assign_to_bins dataset vocabulary thresholds side averaged = .error .unboundLocalIdx := by
  have hside : sideIndex side = none := by
    simp [sideIndex, h1, h2]
  obtain ⟨p, rest, rfl⟩ := List.exists_cons_of_ne_nil h3
  simp [assign_to_bins, hside]

/-- C9 witness: side value both on a one-pair corpus raises the unbound
local error. -/
theorem claim_C9_witness :
    assign_to_bins [(["x"], ["w"])] [] [0] "both" false = .error .unboundLocalIdx :=
  claim_C9_unrecognized_side_fails [(["x"], ["w"])] [] [0] "both" false
    (by decide) (by decide) (by decide)

/-- C10: print_stats draws its sample index from randint over 0 to the bin
length inclusive, so for a non-empty bin the draw equal to the length is
possible and makes the sample access fail. -/
theorem claim_C10_sample_index_off_by_one (currentBin : List SentPair)
    (h : currentBin ≠ []) :
    currentBin.length ∈ randint_outcomes 0 currentBin.length ∧
    sample_from_bin currentBin currentBin.length = none := by
  constructor
  · simp [randint_outcomes]
  · simp [sample_from_bin, List.get?_eq_none]

/-- C10 witness: a one-pair bin can draw index 1 and the access misses. -/
theorem claim_C10_witness :
    (1 : Nat) ∈ randint_outcomes 0 1 ∧
    sample_from_bin [(["x"], ["w"])] 1 = none :=
  claim_C10_sample_index_off_by_one [(["x"], ["w"])] (by decide)

end CurriculumSort
